import Mathlib

/-!
Shallow embedding of `src/yival/experiment/utils.py` (YiVal experiment
execution and aggregation core), together with proofs of the specified
properties.

Python dictionaries keyed by strings (the `defaultdict(list)` grouping
pattern and the registry tables) are embedded as insertion-ordered
association lists, which matches CPython dict semantics.  Python numbers
(latency, token usage, evaluator results) are embedded as `Rat`.
Python `str(obj)` used as a grouping key is embedded as an explicit
function parameter (`strInput`, `strCombo`): any deterministic
serialization function.
-/

namespace Yival

/-- Embedding of `res[key].append(v)` on a `defaultdict(list)`: append `v`
to the bucket of `key`, creating the bucket at the end (CPython dicts are
insertion-ordered) when the key is new. -/
def pushVal {γ : Type} (k : String) (v : γ) : List (String × List γ) → List (String × List γ)
  | [] => [(k, [v])]
  | p :: rest => if p.1 = k then (p.1, p.2 ++ [v]) :: rest else p :: pushVal k v rest

/-- Embedding of the loop `for b in l: res[key b].append(val b)` over a
`defaultdict(list)` starting from dict `acc`. -/
def groupFold {β γ : Type} (key : β → String) (val : β → γ) (l : List β)
    (acc : List (String × List γ)) : List (String × List γ) :=
  l.foldl (fun a b => pushVal (key b) (val b) a) acc

/-- Specification-side helper: the distinct keys of `l` in first-seen
order, continuing an already-collected key list `ks`. -/
def firstSeenKeys {β : Type} (key : β → String) (l : List β) (ks : List String) : List String :=
  l.foldl (fun ks2 b => if key b ∈ ks2 then ks2 else ks2 ++ [key b]) ks

/-- Lookup of the bucket of key `q` in a grouping association list (empty
when absent); a proof-side observation function. -/
def bucketOf {γ : Type} (q : String) : List (String × List γ) → List γ
  | [] => []
  | p :: rest => if p.1 = q then p.2 else bucketOf q rest

/-- Modelled from the spec: `MethodCalculationMethod.AVERAGE.value` (the
enum lives in `schemas/evaluator_config.py`, which is outside `src/`; the
spec describes a closed enumeration of calculation-method names of which
only AVERAGE is handled). -/
def averageMethodValue : String := "AVERAGE"

/-- One entry of an `EvaluatorOutput.metric_calculators` list: a dict
carrying a `"method"` field, read as `metric_calculator["method"]`. -/
structure MetricCalculator where
  method : String
deriving Repr, DecidableEq

/-- Modelled from the spec: `EvaluatorOutput` (schema class outside
`src/`): name of the evaluator/metric family, a numeric result, and an
ordered list of metric-calculator declarations. -/
structure EvaluatorOutput where
  name : String
  result : Rat
  metric_calculators : List MetricCalculator
deriving Repr, DecidableEq

/-- Modelled from the spec: `Metric`, a named scalar
(calculation-method name, value). -/
structure Metric where
  name : String
  value : Rat
deriving Repr, DecidableEq

/-- Modelled from the spec: `InputData` (schema class outside `src/`):
one logical test case holding a mapping of named content values, passed
as keyword arguments to the user function. `V` is the value type. -/
structure InputData (V : Type) where
  content : List (String × V)
deriving Repr, DecidableEq

/-- A variation combination: a mapping from variation-point name to the
selected value (a Python dict, embedded as an ordered association list). -/
abbrev Combination (V : Type) := List (String × V)

/-- Modelled from the spec: `ExperimentResult` (schema class outside
`src/`): one execution outcome.  `R` is the raw-output type. -/
structure ExperimentResult (V R : Type) where
  input_data : InputData V
  combination : Combination V
  raw_output : R
  latency : Rat
  token_usage : Rat
  evaluator_outputs : List EvaluatorOutput
deriving Repr, DecidableEq

/-- Modelled from the spec: `GroupedExperimentResult`: all results for
one input identity plus group-level evaluator outputs. -/
structure GroupedExperimentResult (V R : Type) where
  group_key : String
  experiment_results : List (ExperimentResult V R)
  evaluator_outputs : List EvaluatorOutput
deriving Repr, DecidableEq

/-- Modelled from the spec: `CombinationAggregatedMetrics`: all results
for one combination identity plus aggregated metrics and scalar
averages. -/
structure CombinationAggregatedMetrics (V R : Type) where
  combo_key : String
  experiment_results : List (ExperimentResult V R)
  aggregated_metrics : List (String × List Metric)
  average_token_usage : Rat
  average_latency : Rat
deriving Repr, DecidableEq

/-- Modelled from the spec: `Experiment`, the terminal report. -/
structure Experiment (V R : Type) where
  group_experiment_results : List (GroupedExperimentResult V R)
  combination_aggregated_metrics : List (CombinationAggregatedMetrics V R)
deriving Repr, DecidableEq

/-- Modelled from the spec: the Result Evaluator collaborator contract —
`evaluateIndividual(result) -> [EvaluatorOutput]` and
`evaluateGroup(results) -> [EvaluatorOutput]`. -/
structure Evaluator (V R : Type) where
  evaluate_individual_result : ExperimentResult V R → List EvaluatorOutput
  evaluate_group_result : List (ExperimentResult V R) → List EvaluatorOutput

/-- Embedding of the Python generator-sum in `calculate_metrics`:
`sum(eo.result for r in results if r.evaluator_outputs
for eo in r.evaluator_outputs if eo.name == name)`. -/
def matchingSum {V R : Type} (results : List (ExperimentResult V R)) (name : String) : Rat :=
  (results.map (fun r =>
    if r.evaluator_outputs.isEmpty then 0
    else ((r.evaluator_outputs.filter (fun eo => eo.name = name)).map
      (fun eo => eo.result)).sum)).sum

/-- The `Metric(name=MethodCalculationMethod.AVERAGE.value, value=average_value)`
constructed inside `calculate_metrics`, with
`average_value = total / len(results)`. -/
def metricOf {V R : Type} (results : List (ExperimentResult V R)) (name : String) : Metric :=
  { name := averageMethodValue,
    value := matchingSum results name / (results.length : Rat) }

/-- The inner loop of `calculate_metrics`:
`for metric_calculator in evaluator_output.metric_calculators:` appends one
AVERAGE metric to the bucket of `eo.name` per calculator whose method is
AVERAGE, and skips every other calculator. -/
def calcFoldOne {V R : Type} (results : List (ExperimentResult V R)) (eo : EvaluatorOutput)
    (mcs : List MetricCalculator) (acc : List (String × List Metric)) :
    List (String × List Metric) :=
  mcs.foldl
    (fun res2 mc =>
      if mc.method = averageMethodValue then pushVal eo.name (metricOf results eo.name) res2
      else res2)
    acc

/-- The outer loop of `calculate_metrics`:
`for evaluator_output in reference_evaluator_outputs:`. -/
def calcFold {V R : Type} (results : List (ExperimentResult V R))
    (eos : List EvaluatorOutput) (acc : List (String × List Metric)) :
    List (String × List Metric) :=
  eos.foldl (fun res eo => calcFoldOne results eo eo.metric_calculators res) acc

/-- Embedding of `calculate_metrics` (utils.py lines 107-138): empty input
yields an empty dict; otherwise iterate the evaluator outputs of
`results[0]` and, for each metric calculator whose method is AVERAGE,
append `Metric(AVERAGE, total / len(results))` to the bucket of the
evaluator-output name.  The `if reference_evaluator_outputs:` truthiness
guard is absorbed: folding over an empty output list leaves the dict
empty. -/
def calculate_metrics {V R : Type} (results : List (ExperimentResult V R)) :
    List (String × List Metric) :=
  match results with
  | [] => []
  | r0 :: rest => calcFold (r0 :: rest) r0.evaluator_outputs []

/-- Embedding of `calculate_average_token` (utils.py lines 141-146). -/
def calculate_average_token {V R : Type} (results : List (ExperimentResult V R)) : Rat :=
  if results.isEmpty then 0
  else ((results.map (fun r => r.token_usage)).sum) / (results.length : Rat)

/-- Embedding of `calculate_average_latency` (utils.py lines 149-154). -/
def calculate_average_latency {V R : Type} (results : List (ExperimentResult V R)) : Rat :=
  if results.isEmpty then 0
  else ((results.map (fun r => r.latency)).sum) / (results.length : Rat)

/-- Update an ordered association list at `name` with value `v`: replace
the first matching entry, or append a new entry.  Embeds both the flat
variation-state mapping (`state.set_specific_variation`, spec: "state is a
flat mapping from variation-point name to current value", last-writer-wins)
and a registry store where the last registration for a name wins. -/
def setVar {V : Type} : List (String × V) → String → V → List (String × V)
  | [], name, v => [(name, v)]
  | p :: rest, name, v =>
    if p.1 = name then (p.1, v) :: rest else p :: setVar rest name v

/-- Modelled from the spec: one resolved registration pair — the resolved
class reference and the optional resolved config-class reference (the
declaration shape `{"class": ..., "config_cls"?: ...}`); dynamic import
is embedded as keeping the reference string itself. -/
structure RegEntry where
  cls : String
  config_cls : Option String
deriving Repr, DecidableEq

/-- Modelled from the spec: the three process-wide registry namespaces
(reader / evaluator / wrapper), each independently keyed by name.  The
store operations `BaseReader.register_reader` and
`BaseEvaluator.register_evaluator` live outside `src/`; per the spec each
stores the pair under `name` in its own table, last registration wins. -/
structure Registries where
  readers : List (String × RegEntry)
  evaluators : List (String × RegEntry)
  wrappers : List (String × RegEntry)
deriving Repr, DecidableEq

/-- Embedding of `register_custom_readers` (utils.py lines 54-68): for
each declaration, resolve and store via `BaseReader.register_reader`. -/
def register_custom_readers (customs : List (String × RegEntry)) (regs : Registries) :
    Registries :=
  { regs with readers := customs.foldl (fun t p => setVar t p.1 p.2) regs.readers }

/-- Embedding of `register_custom_evaluators` (utils.py lines 71-87): for
each declaration, resolve and store via `BaseEvaluator.register_evaluator`. -/
def register_custom_evaluators (customs : List (String × RegEntry)) (regs : Registries) :
    Registries :=
  { regs with evaluators := customs.foldl (fun t p => setVar t p.1 p.2) regs.evaluators }

/-- Embedding of `register_custom_wrappers` (utils.py lines 90-104).  Note
that the source stores each wrapper via `BaseEvaluator.register_evaluator`
(line 102), i.e. into the evaluator table, not the wrapper table. -/
def register_custom_wrappers (customs : List (String × RegEntry)) (regs : Registries) :
    Registries :=
  { regs with evaluators := customs.foldl (fun t p => setVar t p.1 p.2) regs.evaluators }

/-- Oracles consumed by `run_single_input`: the user function under test
(resolved from `config["custom_function"]`; it may read the shared
variation state, so it receives the current state alongside the keyword
arguments `d.content`), the wall clock (`time.time()` readings indexed by
read count), the token logger (`logger.get_current_usage()` readings
indexed by invocation count), and the evaluator collaborator. -/
structure RunParams (V R : Type) where
  userFn : List (String × V) → List (String × V) → R
  clock : Nat → Rat
  usage : Nat → Rat
  evaluator : Evaluator V R

/-- Execution state threaded through `run_single_input`: the mutable
experiment state, the clock-read counter, the user-function invocation
counter, the accumulated results, the state snapshot observed by each
user-function invocation, and the number of
`evaluator.evaluate_individual_result` invocations. -/
structure RunState (V R : Type) where
  st : List (String × V)
  tick : Nat
  ncall : Nat
  results : List (ExperimentResult V R)
  callStates : List (List (String × V))
  evalCalls : Nat
deriving DecidableEq

/-- Embedding of the body of the inner loop of `run_single_input`
(utils.py lines 164-188): `for name, variation in combo.items():` sets the
variation, then — still inside this inner loop in the source — times one
invocation of the user function, reads the token logger, constructs an
`ExperimentResult` with empty `evaluator_outputs`, conditionally extends
its evaluator outputs when they are non-empty, and appends it. -/
def stepItem {V R : Type} (P : RunParams V R) (d : InputData V) (combo : Combination V)
    (rs : RunState V R) (item : String × V) : RunState V R :=
  let st1 := setVar rs.st item.1 item.2
  let start_time := P.clock rs.tick
  let res := P.userFn st1 d.content
  let end_time := P.clock (rs.tick + 1)
  let latency := end_time - start_time
  let tokens_used := P.usage rs.ncall
  let result0 : ExperimentResult V R :=
    { input_data := d, combination := combo, raw_output := res,
      latency := latency, token_usage := tokens_used, evaluator_outputs := [] }
  let withEval : ExperimentResult V R × Nat :=
    if result0.evaluator_outputs.isEmpty then (result0, rs.evalCalls)
    else
      ({ result0 with
          evaluator_outputs :=
            result0.evaluator_outputs ++ P.evaluator.evaluate_individual_result result0 },
        rs.evalCalls + 1)
  { st := st1, tick := rs.tick + 2, ncall := rs.ncall + 1,
    results := rs.results ++ [withEval.1],
    callStates := rs.callStates ++ [st1],
    evalCalls := withEval.2 }

/-- The initial `RunState`: `results = []`, no clock reads, no calls. -/
def initRun {V R : Type} (st0 : List (String × V)) : RunState V R :=
  { st := st0, tick := 0, ncall := 0, results := [], callStates := [], evalCalls := 0 }

/-- Embedding of `run_single_input` (utils.py lines 157-189): iterate the
supplied combinations in order; for each combination iterate its items,
running `stepItem` per item (the invocation sits inside the item loop in
the source). -/
def run_single_input {V R : Type} (P : RunParams V R) (d : InputData V)
    (all_combinations : List (Combination V)) (st0 : List (String × V)) : RunState V R :=
  all_combinations.foldl (fun rs combo => combo.foldl (stepItem P d combo) rs) (initRun st0)

/-- Embedding of `generate_experiment` (utils.py lines 192-237): group the
results by `str(input_data)` into `GroupedExperimentResult`s (attaching
the group-level evaluator outputs), independently group by
`str(combination)` into `CombinationAggregatedMetrics` (attaching
aggregated metrics and average token usage / latency).  `strInput` and
`strCombo` embed Python `str` on the respective objects. -/
def generate_experiment {V R : Type} (strInput : InputData V → String)
    (strCombo : Combination V → String) (results : List (ExperimentResult V R))
    (evaluator : Evaluator V R) : Experiment V R :=
  let grouped := groupFold (fun item => strInput item.input_data) id results []
  let comboBuckets := groupFold (fun item => strCombo item.combination) id results []
  { group_experiment_results :=
      grouped.map (fun p =>
        { group_key := p.1, experiment_results := p.2,
          evaluator_outputs := evaluator.evaluate_group_result p.2 }),
    combination_aggregated_metrics :=
      comboBuckets.map (fun p =>
        { combo_key := p.1, experiment_results := p.2,
          aggregated_metrics := calculate_metrics p.2,
          average_token_usage := calculate_average_token p.2,
          average_latency := calculate_average_latency p.2 }) }

/-! Concrete fixtures used to instantiate the universally quantified
theorems below. -/

/-- A trivial evaluator collaborator returning no outputs. -/
def natEvaluator : Evaluator Nat Nat :=
  { evaluate_individual_result := fun _ => [], evaluate_group_result := fun _ => [] }

/-- Sample run oracles: constant user function, constant clock, constant
token logger. -/
def sampleParams : RunParams Nat Nat :=
  { userFn := fun _ _ => 0, clock := fun _ => 0, usage := fun _ => 0,
    evaluator := natEvaluator }

/-- Sample serialization of an `InputData Nat`, standing in for Python
`str(input_data)`. -/
def strInputNat (d : InputData Nat) : String :=
  String.intercalate "," (d.content.map (fun p => p.1 ++ toString p.2))

/-- Sample serialization of a `Combination Nat`, standing in for Python
`str(combination)`. -/
def strComboNat (c : Combination Nat) : String :=
  String.intercalate "," (c.map (fun p => p.1 ++ toString p.2))

/-- A sample result carrying the given input key and combination key and
no evaluator outputs. -/
def sampleResult (ik ck : String) (n : Nat) : ExperimentResult Nat Nat :=
  { input_data := { content := [(ik, 0)] }, combination := [(ck, 0)], raw_output := n,
    latency := 1, token_usage := 2, evaluator_outputs := [] }

/-- An evaluator output named `"accuracy"` with the given value and one
declared AVERAGE metric calculator. -/
def accOutput (v : Rat) : EvaluatorOutput :=
  { name := "accuracy", result := v, metric_calculators := [{ method := averageMethodValue }] }

/-- A result whose only evaluator output is `accOutput v`. -/
def accResult (v : Rat) : ExperimentResult Nat Nat :=
  { input_data := { content := [] }, combination := [], raw_output := 0,
    latency := 0, token_usage := 0, evaluator_outputs := [accOutput v] }

/-- A result missing the expected `"accuracy"` evaluator-output
declaration entirely. -/
def gapResult : ExperimentResult Nat Nat :=
  { input_data := { content := [] }, combination := [], raw_output := 0,
    latency := 0, token_usage := 0, evaluator_outputs := [] }

/-- A sample registration declaration for a wrapper. -/
def wrapperEntry : RegEntry := { cls := "my_module.MyWrapper", config_cls := none }

/-- The empty registries. -/
def emptyRegs : Registries := { readers := [], evaluators := [], wrappers := [] }

/-! Lemmas about the `defaultdict(list)` grouping pattern. -/

theorem pushVal_keys {γ : Type} (k : String) (v : γ) (acc : List (String × List γ)) :
    (pushVal k v acc).map Prod.fst =
      if k ∈ acc.map Prod.fst then acc.map Prod.fst else acc.map Prod.fst ++ [k] := by
  induction acc with
  | nil => simp [pushVal]
  | cons p rest ih =>
    by_cases h : p.1 = k
    · simp [pushVal, h]
    · have hne : ¬ k = p.1 := fun he => h he.symm
      simp only [pushVal, if_neg h, List.map_cons, ih, List.mem_cons, hne, false_or]
      by_cases h2 : k ∈ rest.map Prod.fst
      · simp [h2]
      · simp [h2]

theorem pushVal_wellKeyed {γ : Type} (K : String → γ → Prop) (k : String) (v : γ)
    (acc : List (String × List γ)) (hacc : ∀ p ∈ acc, ∀ x ∈ p.2, K p.1 x) (hv : K k v) :
    ∀ p ∈ pushVal k v acc, ∀ x ∈ p.2, K p.1 x := by
  induction acc with
  | nil =>
    intro p hp x hx
    simp only [pushVal, List.mem_singleton] at hp
    subst hp
    simp only [List.mem_singleton] at hx
    subst hx
    exact hv
  | cons p rest ih =>
    by_cases h : p.1 = k
    · intro q hq x hx
      simp only [pushVal, if_pos h, List.mem_cons] at hq
      rcases hq with hq | hq
      · subst hq
        simp only [List.mem_append, List.mem_singleton] at hx
        rcases hx with hx | hx
        · exact hacc p (List.mem_cons_self p rest) x hx
        · subst hx
          rw [h]
          exact hv
      · exact hacc q (List.mem_cons_of_mem p hq) x hx
    · intro q hq x hx
      simp only [pushVal, if_neg h, List.mem_cons] at hq
      rcases hq with hq | hq
      · subst hq
        exact hacc q (List.mem_cons_self q rest) x hx
      · exact ih (fun p2 hp2 => hacc p2 (List.mem_cons_of_mem p hp2)) q hq x hx

theorem pushVal_join_perm {γ : Type} (k : String) (v : γ) (acc : List (String × List γ)) :
    ((pushVal k v acc).map Prod.snd).flatten.Perm ((acc.map Prod.snd).flatten ++ [v]) := by
  induction acc with
  | nil => simp [pushVal]
  | cons p rest ih =>
    by_cases h : p.1 = k
    · simp only [pushVal, if_pos h, List.map_cons, List.flatten_cons]
      rw [List.append_assoc, List.append_assoc]
      exact List.Perm.append_left p.2 List.perm_append_comm
    · simp only [pushVal, if_neg h, List.map_cons, List.flatten_cons]
      rw [List.append_assoc]
      exact List.Perm.append_left p.2 ih

theorem bucketOf_pushVal {γ : Type} (q k : String) (v : γ) (acc : List (String × List γ)) :
    bucketOf q (pushVal k v acc) =
      if k = q then bucketOf q acc ++ [v] else bucketOf q acc := by
  induction acc with
  | nil =>
    by_cases h : k = q <;> simp [pushVal, bucketOf, h]
  | cons p rest ih =>
    by_cases h : p.1 = k
    · subst h
      by_cases h2 : p.1 = q
      · simp [pushVal, bucketOf, h2]
      · simp [pushVal, bucketOf, h2]
    · simp only [pushVal, if_neg h]
      by_cases h2 : p.1 = q
      · have h3 : ¬ k = q := fun he => h (h2.trans he.symm)
        simp [bucketOf, h2, h3]
      · simp [bucketOf, h2, ih]

theorem groupFold_keys {β γ : Type} (key : β → String) (val : β → γ) (l : List β)
    (acc : List (String × List γ)) :
    (groupFold key val l acc).map Prod.fst = firstSeenKeys key l (acc.map Prod.fst) := by
  induction l generalizing acc with
  | nil => rfl
  | cons b l ih =>
    show (groupFold key val l (pushVal (key b) (val b) acc)).map Prod.fst = _
    rw [ih, pushVal_keys]
    rfl

theorem firstSeenKeys_nodup {β : Type} (key : β → String) (l : List β) (ks : List String)
    (h : ks.Nodup) : (firstSeenKeys key l ks).Nodup := by
  induction l generalizing ks with
  | nil => exact h
  | cons b l ih =>
    show (firstSeenKeys key l (if key b ∈ ks then ks else ks ++ [key b])).Nodup
    by_cases h2 : key b ∈ ks
    · rw [if_pos h2]
      exact ih ks h
    · rw [if_neg h2]
      refine ih _ ?_
      simp [List.nodup_append, h, h2]

theorem groupFold_wellKeyed {β γ : Type} (K : String → γ → Prop) (key : β → String)
    (val : β → γ) (l : List β) (acc : List (String × List γ))
    (hacc : ∀ p ∈ acc, ∀ x ∈ p.2, K p.1 x) (hval : ∀ b, K (key b) (val b)) :
    ∀ p ∈ groupFold key val l acc, ∀ x ∈ p.2, K p.1 x := by
  induction l generalizing acc with
  | nil => exact hacc
  | cons b l ih =>
    exact ih (pushVal (key b) (val b) acc)
      (pushVal_wellKeyed K (key b) (val b) acc hacc (hval b))

theorem groupFold_join_perm {β γ : Type} (key : β → String) (val : β → γ) (l : List β)
    (acc : List (String × List γ)) :
    ((groupFold key val l acc).map Prod.snd).flatten.Perm
      ((acc.map Prod.snd).flatten ++ l.map val) := by
  induction l generalizing acc with
  | nil => simp [groupFold]
  | cons b l ih =>
    have h1 := ih (pushVal (key b) (val b) acc)
    have h2 := (pushVal_join_perm (key b) (val b) acc).append_right (l.map val)
    refine (h1.trans h2).trans ?_
    rw [List.append_assoc]
    simp

theorem bucketOf_groupFold {β γ : Type} (key : β → String) (val : β → γ) (l : List β)
    (acc : List (String × List γ)) (q : String) :
    bucketOf q (groupFold key val l acc) =
      bucketOf q acc ++ (l.filter (fun b => key b = q)).map val := by
  induction l generalizing acc with
  | nil => simp [groupFold]
  | cons b l ih =>
    show bucketOf q (groupFold key val l (pushVal (key b) (val b) acc)) = _
    rw [ih, bucketOf_pushVal]
    by_cases h : key b = q
    · simp [h, List.filter_cons, List.append_assoc]
    · simp [h, List.filter_cons]

theorem mem_eq_bucketOf {γ : Type} (g : List (String × List γ))
    (hnd : (g.map Prod.fst).Nodup) (k : String) (vs : List γ) (hm : (k, vs) ∈ g) :
    vs = bucketOf k g := by
  induction g with
  | nil => cases hm
  | cons p rest ih =>
    rcases List.mem_cons.mp hm with h | h
    · rw [← h]
      simp [bucketOf]
    · have h1 : p.1 ≠ k := by
        intro he
        have : k ∈ rest.map Prod.fst := by
          exact List.mem_map.mpr ⟨(k, vs), h, rfl⟩
        rw [List.map_cons, List.nodup_cons] at hnd
        exact hnd.1 (he ▸ this)
      rw [List.map_cons, List.nodup_cons] at hnd
      simp only [bucketOf, if_neg h1]
      exact ih hnd.2 h

/-! Helper lemmas about `run_single_input`. -/

theorem stepItem_eq {V R : Type} (P : RunParams V R) (d : InputData V) (combo : Combination V)
    (rs : RunState V R) (item : String × V) :
    stepItem P d combo rs item =
      { st := setVar rs.st item.1 item.2,
        tick := rs.tick + 2,
        ncall := rs.ncall + 1,
        results := rs.results ++
          [{ input_data := d, combination := combo,
             raw_output := P.userFn (setVar rs.st item.1 item.2) d.content,
             latency := P.clock (rs.tick + 1) - P.clock rs.tick,
             token_usage := P.usage rs.ncall, evaluator_outputs := [] }],
        callStates := rs.callStates ++ [setVar rs.st item.1 item.2],
        evalCalls := rs.evalCalls } := rfl

theorem itemsFold_evalFree {V R : Type} (P : RunParams V R) (d : InputData V)
    (combo : Combination V) (items : List (String × V)) (rs : RunState V R)
    (h : ∀ r ∈ rs.results, r.evaluator_outputs = []) :
    (items.foldl (stepItem P d combo) rs).evalCalls = rs.evalCalls ∧
      ∀ r ∈ (items.foldl (stepItem P d combo) rs).results, r.evaluator_outputs = [] := by
  induction items generalizing rs with
  | nil => exact ⟨rfl, h⟩
  | cons item items ih =>
    refine ih (stepItem P d combo rs item) ?_
    intro r hr
    rw [stepItem_eq] at hr
    simp only [List.mem_append, List.mem_singleton] at hr
    rcases hr with hr | hr
    · exact h r hr
    · rw [hr]

theorem runFold_evalFree {V R : Type} (P : RunParams V R) (d : InputData V)
    (combos : List (Combination V)) (rs : RunState V R)
    (h : ∀ r ∈ rs.results, r.evaluator_outputs = []) :
    (combos.foldl (fun a combo => combo.foldl (stepItem P d combo) a) rs).evalCalls
        = rs.evalCalls ∧
      ∀ r ∈ (combos.foldl (fun a combo => combo.foldl (stepItem P d combo) a) rs).results,
        r.evaluator_outputs = [] := by
  induction combos generalizing rs with
  | nil => exact ⟨rfl, h⟩
  | cons combo combos ih =>
    have h1 := itemsFold_evalFree P d combo combo rs h
    have h2 := ih (combo.foldl (stepItem P d combo) rs) h1.2
    exact ⟨h2.1.trans h1.1, h2.2⟩

/-! Helper lemmas about `calculate_metrics`. -/

theorem mem_keys_pushVal {γ : Type} (k2 k : String) (v : γ) (acc : List (String × List γ))
    (h : k2 ∈ (pushVal k v acc).map Prod.fst) : k2 ∈ acc.map Prod.fst ∨ k2 = k := by
  rw [pushVal_keys] at h
  by_cases h2 : k ∈ acc.map Prod.fst
  · rw [if_pos h2] at h
    exact Or.inl h
  · rw [if_neg h2] at h
    rcases List.mem_append.mp h with h | h
    · exact Or.inl h
    · exact Or.inr (List.mem_singleton.mp h)

theorem calcFoldOne_keys {V R : Type} (results : List (ExperimentResult V R))
    (eo : EvaluatorOutput) (mcs : List MetricCalculator) (acc : List (String × List Metric))
    (k2 : String) (h : k2 ∈ (calcFoldOne results eo mcs acc).map Prod.fst) :
    k2 ∈ acc.map Prod.fst ∨
      (k2 = eo.name ∧ ∃ mc ∈ mcs, mc.method = averageMethodValue) := by
  induction mcs generalizing acc with
  | nil => exact Or.inl h
  | cons mc mcs ih =>
    by_cases hc : mc.method = averageMethodValue
    · have h2 : calcFoldOne results eo (mc :: mcs) acc
          = calcFoldOne results eo mcs (pushVal eo.name (metricOf results eo.name) acc) := by
        simp [calcFoldOne, hc]
      rw [h2] at h
      rcases ih _ h with h3 | h3
      · rcases mem_keys_pushVal k2 eo.name (metricOf results eo.name) acc h3 with h4 | h4
        · exact Or.inl h4
        · exact Or.inr ⟨h4, mc, List.mem_cons_self mc mcs, hc⟩
      · exact Or.inr ⟨h3.1, h3.2.choose, List.mem_cons_of_mem mc h3.2.choose_spec.1,
          h3.2.choose_spec.2⟩
    · have h2 : calcFoldOne results eo (mc :: mcs) acc = calcFoldOne results eo mcs acc := by
        simp [calcFoldOne, hc]
      rw [h2] at h
      rcases ih _ h with h3 | h3
      · exact Or.inl h3
      · exact Or.inr ⟨h3.1, h3.2.choose, List.mem_cons_of_mem mc h3.2.choose_spec.1,
          h3.2.choose_spec.2⟩

theorem calcFold_keys {V R : Type} (results : List (ExperimentResult V R))
    (eos : List EvaluatorOutput) (acc : List (String × List Metric)) (k2 : String)
    (h : k2 ∈ (calcFold results eos acc).map Prod.fst) :
    k2 ∈ acc.map Prod.fst ∨
      ∃ eo ∈ eos, eo.name = k2 ∧ ∃ mc ∈ eo.metric_calculators,
        mc.method = averageMethodValue := by
  induction eos generalizing acc with
  | nil => exact Or.inl h
  | cons eo eos ih =>
    have h2 : calcFold results (eo :: eos) acc
        = calcFold results eos (calcFoldOne results eo eo.metric_calculators acc) := rfl
    rw [h2] at h
    rcases ih _ h with h3 | h3
    · rcases calcFoldOne_keys results eo eo.metric_calculators acc k2 h3 with h4 | h4
      · exact Or.inl h4
      · exact Or.inr ⟨eo, List.mem_cons_self eo eos, h4.1.symm, h4.2⟩
    · exact Or.inr ⟨h3.choose, List.mem_cons_of_mem eo h3.choose_spec.1, h3.choose_spec.2⟩

theorem calcFoldOne_no_average {V R : Type} (results : List (ExperimentResult V R))
    (eo : EvaluatorOutput) (mcs : List MetricCalculator) (acc : List (String × List Metric))
    (h : ∀ mc ∈ mcs, mc.method ≠ averageMethodValue) :
    calcFoldOne results eo mcs acc = acc := by
  induction mcs generalizing acc with
  | nil => rfl
  | cons mc mcs ih =>
    have h1 : calcFoldOne results eo (mc :: mcs) acc = calcFoldOne results eo mcs acc := by
      simp [calcFoldOne, h mc (List.mem_cons_self mc mcs)]
    rw [h1]
    exact ih acc (fun mc2 hm => h mc2 (List.mem_cons_of_mem mc hm))

theorem calcFold_no_average {V R : Type} (results : List (ExperimentResult V R))
    (eos : List EvaluatorOutput) (acc : List (String × List Metric))
    (h : ∀ eo ∈ eos, ∀ mc ∈ eo.metric_calculators, mc.method ≠ averageMethodValue) :
    calcFold results eos acc = acc := by
  induction eos generalizing acc with
  | nil => rfl
  | cons eo eos ih =>
    have h1 : calcFold results (eo :: eos) acc
        = calcFold results eos (calcFoldOne results eo eo.metric_calculators acc) := rfl
    rw [h1, calcFoldOne_no_average results eo eo.metric_calculators acc
      (h eo (List.mem_cons_self eo eos))]
    exact ih acc (fun eo2 hm => h eo2 (List.mem_cons_of_mem eo hm))

/-! Claim theorems. -/

/-- C1: the claim states that `run_single_input` invokes the user function
exactly once per combination and returns one `ExperimentResult` per
combination, with the whole combination applied to state during the call.
The source places the invocation inside the inner
`for name, variation in combo.items():` loop, so a single combination with
two variation points yields two invocations and two results, the first of
which observes only the first variation point.  This theorem evaluates the
embedded code at that failing input. -/
theorem run_single_input_invokes_per_item :
    ([[("a", 1), ("b", 2)]] : List (Combination Nat)).length = 1
      ∧ (run_single_input sampleParams { content := [("q", 5)] }
          [[("a", 1), ("b", 2)]] []).ncall = 2
      ∧ (run_single_input sampleParams { content := [("q", 5)] }
          [[("a", 1), ("b", 2)]] []).results.length = 2
      ∧ (run_single_input sampleParams { content := [("q", 5)] }
          [[("a", 1), ("b", 2)]] []).callStates
        = [[("a", 1)], [("a", 1), ("b", 2)]] :=
  ⟨rfl, by decide, by decide, by decide⟩

/-- C2: `generate_experiment` places every result in exactly one
input-identity group and in exactly one combination-identity bucket: the
group keys are pairwise distinct, every member of a bucket has that
bucket's key, and the concatenation of the buckets of either family is a
permutation of the original result list (no duplicates, no omissions). -/
theorem generate_experiment_partition {V R : Type} (strInput : InputData V → String)
    (strCombo : Combination V → String) (results : List (ExperimentResult V R))
    (evaluator : Evaluator V R) :
    (((generate_experiment strInput strCombo results evaluator).group_experiment_results.map
          (fun g => g.group_key)).Nodup
      ∧ (∀ g ∈ (generate_experiment strInput strCombo results
            evaluator).group_experiment_results,
          ∀ r ∈ g.experiment_results, strInput r.input_data = g.group_key)
      ∧ (((generate_experiment strInput strCombo results
            evaluator).group_experiment_results.map
          (fun g => g.experiment_results)).flatten.Perm results))
    ∧ (((generate_experiment strInput strCombo results
          evaluator).combination_aggregated_metrics.map
          (fun c => c.combo_key)).Nodup
      ∧ (∀ c ∈ (generate_experiment strInput strCombo results
            evaluator).combination_aggregated_metrics,
          ∀ r ∈ c.experiment_results, strCombo r.combination = c.combo_key)
      ∧ (((generate_experiment strInput strCombo results
            evaluator).combination_aggregated_metrics.map
          (fun c => c.experiment_results)).flatten.Perm results)) := by
  have hg : (generate_experiment strInput strCombo results evaluator).group_experiment_results
      = (groupFold (fun item => strInput item.input_data) id results []).map
        (fun p => { group_key := p.1, experiment_results := p.2,
                    evaluator_outputs := evaluator.evaluate_group_result p.2 }) := rfl
  have hc : (generate_experiment strInput strCombo results
        evaluator).combination_aggregated_metrics
      = (groupFold (fun item => strCombo item.combination) id results []).map
        (fun p => { combo_key := p.1, experiment_results := p.2,
                    aggregated_metrics := calculate_metrics p.2,
                    average_token_usage := calculate_average_token p.2,
                    average_latency := calculate_average_latency p.2 }) := rfl
  refine ⟨⟨?_, ?_, ?_⟩, ⟨?_, ?_, ?_⟩⟩
  · rw [hg, List.map_map]
    have h1 : ((fun g : GroupedExperimentResult V R => g.group_key) ∘
        fun p : String × List (ExperimentResult V R) =>
          ({ group_key := p.1, experiment_results := p.2,
             evaluator_outputs := evaluator.evaluate_group_result p.2 } :
            GroupedExperimentResult V R)) = Prod.fst := rfl
    rw [h1, groupFold_keys]
    exact firstSeenKeys_nodup _ results _ (by simp)
  · intro g hg2 r hr
    rw [hg] at hg2
    rcases List.mem_map.mp hg2 with ⟨p, hp, rfl⟩
    exact groupFold_wellKeyed (fun k x => strInput x.input_data = k)
      (fun item => strInput item.input_data) id results []
      (fun p2 hp2 => absurd hp2 (List.not_mem_nil p2)) (fun b => rfl) p hp r hr
  · rw [hg, List.map_map]
    have h1 : ((fun g : GroupedExperimentResult V R => g.experiment_results) ∘
        fun p : String × List (ExperimentResult V R) =>
          ({ group_key := p.1, experiment_results := p.2,
             evaluator_outputs := evaluator.evaluate_group_result p.2 } :
            GroupedExperimentResult V R)) = Prod.snd := rfl
    rw [h1]
    have h2 := groupFold_join_perm (fun item => strInput item.input_data) id results []
    simpa using h2
  · rw [hc, List.map_map]
    have h1 : ((fun c : CombinationAggregatedMetrics V R => c.combo_key) ∘
        fun p : String × List (ExperimentResult V R) =>
          ({ combo_key := p.1, experiment_results := p.2,
             aggregated_metrics := calculate_metrics p.2,
             average_token_usage := calculate_average_token p.2,
             average_latency := calculate_average_latency p.2 } :
            CombinationAggregatedMetrics V R)) = Prod.fst := rfl
    rw [h1, groupFold_keys]
    exact firstSeenKeys_nodup _ results _ (by simp)
  · intro c hc2 r hr
    rw [hc] at hc2
    rcases List.mem_map.mp hc2 with ⟨p, hp, rfl⟩
    exact groupFold_wellKeyed (fun k x => strCombo x.combination = k)
      (fun item => strCombo item.combination) id results []
      (fun p2 hp2 => absurd hp2 (List.not_mem_nil p2)) (fun b => rfl) p hp r hr
  · rw [hc, List.map_map]
    have h1 : ((fun c : CombinationAggregatedMetrics V R => c.experiment_results) ∘
        fun p : String × List (ExperimentResult V R) =>
          ({ combo_key := p.1, experiment_results := p.2,
             aggregated_metrics := calculate_metrics p.2,
             average_token_usage := calculate_average_token p.2,
             average_latency := calculate_average_latency p.2 } :
            CombinationAggregatedMetrics V R)) = Prod.snd := rfl
    rw [h1]
    have h2 := groupFold_join_perm (fun item => strCombo item.combination) id results []
    simpa using h2

/-- C2 witness: the theorem applied at a concrete two-result list. -/
theorem generate_experiment_partition_witness :
    ((generate_experiment strInputNat strComboNat
        [sampleResult "x" "c" 0, sampleResult "y" "d" 1]
        natEvaluator).group_experiment_results.map (fun g => g.group_key)).Nodup :=
  (generate_experiment_partition strInputNat strComboNat
    [sampleResult "x" "c" 0, sampleResult "y" "d" 1] natEvaluator).1.1

/-- C3: for a bucket of three results carrying evaluator-output
`"accuracy"` values `[1, 0, 1]` with a declared AVERAGE calculator,
`calculate_metrics` maps `"accuracy"` to one AVERAGE metric of value
`2/3` (sum of matching values over `len(results)`); appending a fourth
result that lacks the declaration contributes nothing to the sum but
still counts in the divisor, giving `1/2` — with no failure. -/
theorem calculate_metrics_accuracy_average :
    calculate_metrics [accResult 1, accResult 0, accResult 1]
        = [("accuracy", [{ name := averageMethodValue, value := 2 / 3 }])]
      ∧ calculate_metrics [accResult 1, accResult 0, accResult 1, gapResult]
        = [("accuracy", [{ name := averageMethodValue, value := 1 / 2 }])] := by
  constructor
  · norm_num [calculate_metrics, calcFold, calcFoldOne, metricOf, matchingSum, pushVal,
      accResult, accOutput, averageMethodValue]
  · norm_num [calculate_metrics, calcFold, calcFoldOne, metricOf, matchingSum, pushVal,
      accResult, accOutput, gapResult, averageMethodValue]

/-- C4: for a non-empty result list the two scalar aggregates equal the
arithmetic mean of the respective fields, and for the empty list both
return `0` (the division is guarded, never `0/0`). -/
theorem calculate_average_arithmetic_mean {V R : Type}
    (results : List (ExperimentResult V R)) :
    (results ≠ [] →
      calculate_average_token results
          = (results.map (fun r => r.token_usage)).sum / (results.length : Rat)
        ∧ calculate_average_latency results
          = (results.map (fun r => r.latency)).sum / (results.length : Rat))
    ∧ calculate_average_token ([] : List (ExperimentResult V R)) = 0
    ∧ calculate_average_latency ([] : List (ExperimentResult V R)) = 0 := by
  refine ⟨fun h => ⟨?_, ?_⟩, rfl, rfl⟩
  · simp [calculate_average_token, h]
  · simp [calculate_average_latency, h]

/-- C4 witness: the theorem applied at a concrete one-element list. -/
theorem calculate_average_arithmetic_mean_witness :
    ([sampleResult "i" "c" 0] : List (ExperimentResult Nat Nat)) ≠ []
      ∧ calculate_average_token [sampleResult "i" "c" 0]
        = (([sampleResult "i" "c" 0] : List (ExperimentResult Nat Nat)).map
            (fun r => r.token_usage)).sum
          / ((([sampleResult "i" "c" 0] : List (ExperimentResult Nat Nat)).length : Nat) : Rat) :=
  ⟨by simp, ((calculate_average_arithmetic_mean [sampleResult "i" "c" 0]).1 (by simp)).1⟩

/-- C5: `calculate_metrics` takes its schema from `results[0]` only: every
emitted bucket key is the name of an evaluator output of the first result
that declares an AVERAGE calculator; a first result without evaluator
outputs yields the empty mapping, and declarations whose method is not
AVERAGE yield no metric at all (all without error). -/
theorem calculate_metrics_schema_from_first {V R : Type} (r0 : ExperimentResult V R)
    (rest : List (ExperimentResult V R)) :
    (∀ p ∈ calculate_metrics (r0 :: rest),
        ∃ eo ∈ r0.evaluator_outputs, eo.name = p.1
          ∧ ∃ mc ∈ eo.metric_calculators, mc.method = averageMethodValue)
    ∧ (r0.evaluator_outputs = [] → calculate_metrics (r0 :: rest) = [])
    ∧ ((∀ eo ∈ r0.evaluator_outputs, ∀ mc ∈ eo.metric_calculators,
          mc.method ≠ averageMethodValue) → calculate_metrics (r0 :: rest) = []) := by
  have hcm : calculate_metrics (r0 :: rest) = calcFold (r0 :: rest) r0.evaluator_outputs [] :=
    rfl
  refine ⟨?_, ?_, ?_⟩
  · intro p hp
    have h1 : p.1 ∈ (calcFold (r0 :: rest) r0.evaluator_outputs []).map Prod.fst := by
      rw [← hcm]
      exact List.mem_map.mpr ⟨p, hp, rfl⟩
    rcases calcFold_keys (r0 :: rest) r0.evaluator_outputs [] p.1 h1 with h2 | h2
    · simp at h2
    · exact h2
  · intro h
    rw [hcm, h]
    rfl
  · intro h
    rw [hcm, calcFold_no_average _ _ _ h]

/-- C5 witness: the theorem applied at a result whose evaluator outputs
are empty, discharging the emptiness hypothesis. -/
theorem calculate_metrics_schema_from_first_witness :
    calculate_metrics [gapResult] = [] :=
  (calculate_metrics_schema_from_first gapResult []).2.1 rfl

/-- C6: the claim states that registering a wrapper touches only the
wrapper namespace.  The source of `register_custom_wrappers` stores every
wrapper through `BaseEvaluator.register_evaluator` (utils.py line 102),
so the wrapper table is left unchanged and the evaluator table receives
the entry.  This theorem evaluates the embedded code at that failing
input. -/
theorem register_custom_wrappers_stores_in_evaluator_registry :
    (register_custom_wrappers [("w", wrapperEntry)] emptyRegs).wrappers = []
      ∧ (register_custom_wrappers [("w", wrapperEntry)] emptyRegs).evaluators
        = [("w", wrapperEntry)]
      ∧ (register_custom_wrappers [("w", wrapperEntry)] emptyRegs).readers = [] :=
  ⟨rfl, rfl, rfl⟩

/-- C7: grouping in `generate_experiment` is stable and insertion-ordered:
the bucket keys of both families appear in first-seen order of the
corresponding identities, and each bucket holds exactly the results with
its key in their original relative order. -/
theorem generate_experiment_insertion_order {V R : Type} (strInput : InputData V → String)
    (strCombo : Combination V → String) (results : List (ExperimentResult V R))
    (evaluator : Evaluator V R) :
    ((generate_experiment strInput strCombo results evaluator).group_experiment_results.map
          (fun g => g.group_key)
        = firstSeenKeys (fun r => strInput r.input_data) results []
      ∧ ∀ g ∈ (generate_experiment strInput strCombo results
            evaluator).group_experiment_results,
          g.experiment_results
            = results.filter (fun r => strInput r.input_data = g.group_key))
    ∧ ((generate_experiment strInput strCombo results
          evaluator).combination_aggregated_metrics.map (fun c => c.combo_key)
        = firstSeenKeys (fun r => strCombo r.combination) results []
      ∧ ∀ c ∈ (generate_experiment strInput strCombo results
            evaluator).combination_aggregated_metrics,
          c.experiment_results
            = results.filter (fun r => strCombo r.combination = c.combo_key)) := by
  have hg : (generate_experiment strInput strCombo results evaluator).group_experiment_results
      = (groupFold (fun item => strInput item.input_data) id results []).map
        (fun p => { group_key := p.1, experiment_results := p.2,
                    evaluator_outputs := evaluator.evaluate_group_result p.2 }) := rfl
  have hc : (generate_experiment strInput strCombo results
        evaluator).combination_aggregated_metrics
      = (groupFold (fun item => strCombo item.combination) id results []).map
        (fun p => { combo_key := p.1, experiment_results := p.2,
                    aggregated_metrics := calculate_metrics p.2,
                    average_token_usage := calculate_average_token p.2,
                    average_latency := calculate_average_latency p.2 }) := rfl
  have hndg : (((groupFold (fun item : ExperimentResult V R => strInput item.input_data)
      id results []).map Prod.fst)).Nodup := by
    rw [groupFold_keys]
    exact firstSeenKeys_nodup _ results _ (by simp)
  have hndc : (((groupFold (fun item : ExperimentResult V R => strCombo item.combination)
      id results []).map Prod.fst)).Nodup := by
    rw [groupFold_keys]
    exact firstSeenKeys_nodup _ results _ (by simp)
  refine ⟨⟨?_, ?_⟩, ⟨?_, ?_⟩⟩
  · rw [hg, List.map_map]
    have h1 : ((fun g : GroupedExperimentResult V R => g.group_key) ∘
        fun p : String × List (ExperimentResult V R) =>
          ({ group_key := p.1, experiment_results := p.2,
             evaluator_outputs := evaluator.evaluate_group_result p.2 } :
            GroupedExperimentResult V R)) = Prod.fst := rfl
    rw [h1, groupFold_keys]
    rfl
  · intro g hg2
    rw [hg] at hg2
    rcases List.mem_map.mp hg2 with ⟨p, hp, rfl⟩
    have h1 : p.2 = bucketOf p.1
        (groupFold (fun item : ExperimentResult V R => strInput item.input_data)
          id results []) :=
      mem_eq_bucketOf _ hndg p.1 p.2 hp
    rw [bucketOf_groupFold] at h1
    simpa [bucketOf] using h1
  · rw [hc, List.map_map]
    have h1 : ((fun c : CombinationAggregatedMetrics V R => c.combo_key) ∘
        fun p : String × List (ExperimentResult V R) =>
          ({ combo_key := p.1, experiment_results := p.2,
             aggregated_metrics := calculate_metrics p.2,
             average_token_usage := calculate_average_token p.2,
             average_latency := calculate_average_latency p.2 } :
            CombinationAggregatedMetrics V R)) = Prod.fst := rfl
    rw [h1, groupFold_keys]
    rfl
  · intro c hc2
    rw [hc] at hc2
    rcases List.mem_map.mp hc2 with ⟨p, hp, rfl⟩
    have h1 : p.2 = bucketOf p.1
        (groupFold (fun item : ExperimentResult V R => strCombo item.combination)
          id results []) :=
      mem_eq_bucketOf _ hndc p.1 p.2 hp
    rw [bucketOf_groupFold] at h1
    simpa [bucketOf] using h1

/-- C7 witness: the theorem applied at results fed in input-identity order
x, y, x. -/
theorem generate_experiment_insertion_order_witness :
    (generate_experiment strInputNat strComboNat
        [sampleResult "x" "c" 0, sampleResult "y" "c" 1, sampleResult "x" "c" 2]
        natEvaluator).group_experiment_results.map (fun g => g.group_key)
      = firstSeenKeys (fun r => strInputNat r.input_data)
          [sampleResult "x" "c" 0, sampleResult "y" "c" 1, sampleResult "x" "c" 2] [] :=
  (generate_experiment_insertion_order strInputNat strComboNat
    [sampleResult "x" "c" 0, sampleResult "y" "c" 1, sampleResult "x" "c" 2]
    natEvaluator).1.1

/-- C8: `calculate_metrics` on the empty list returns the empty mapping
without error. -/
theorem calculate_metrics_empty (V R : Type) :
    calculate_metrics ([] : List (ExperimentResult V R)) = [] := rfl

/-- C9: every `ExperimentResult` built by `run_single_input` is created
with empty evaluator outputs, so the `if result.evaluator_outputs:` branch
never fires: `evaluate_individual_result` is invoked zero times and every
returned result carries empty `evaluator_outputs`. -/
theorem run_single_input_no_individual_evaluation {V R : Type} (P : RunParams V R)
    (d : InputData V) (combos : List (Combination V)) (st0 : List (String × V)) :
    (run_single_input P d combos st0).evalCalls = 0
      ∧ ∀ r ∈ (run_single_input P d combos st0).results, r.evaluator_outputs = [] := by
  have h := runFold_evalFree P d combos (initRun st0)
    (fun r hr => absurd hr (List.not_mem_nil r))
  exact ⟨h.1, h.2⟩

/-- C9 witness: the theorem applied at one input, one combination. -/
theorem run_single_input_no_individual_evaluation_witness :
    (run_single_input sampleParams { content := [("q", 5)] } [[("a", 1)]] []).evalCalls
      = 0 :=
  (run_single_input_no_individual_evaluation sampleParams { content := [("q", 5)] }
    [[("a", 1)]] []).1

/-- C10: with an empty combination list, `run_single_input` returns the
empty result list, performs no user-function invocation, and leaves the
experiment-state handle untouched. -/
theorem run_single_input_empty_combinations {V R : Type} (P : RunParams V R)
    (d : InputData V) (st0 : List (String × V)) :
    (run_single_input P d [] st0).results = []
      ∧ (run_single_input P d [] st0).ncall = 0
      ∧ (run_single_input P d [] st0).st = st0
      ∧ (run_single_input P d [] st0).callStates = [] :=
  ⟨rfl, rfl, rfl, rfl⟩

end Yival
